import Mathlib

set_option maxRecDepth 8000

/-!
Verification development for the `mud` music-data library.

The Python sources under `src/mud/` are shallowly embedded below:
Python floats are modelled as exact rationals (`ℚ`), code that can raise
returns `Except PyErr`, and `None`-able values are `Option`s.  The module
`mud.settings` (not part of the sources here) supplies a module-level
default quantization resolution; it is threaded through the embedding as
an explicit parameter `res : ℚ`.
-/

deriving instance DecidableEq for Except

/-- The kinds of Python exceptions raised by the embedded code. -/
inductive PyErr where
  | valueError
  | typeError
  | keyError
  | indexError
  | assertionError
  | zeroDivisionError
  | attributeError
  | warning
  | nonTerminating
  deriving DecidableEq, Repr

/-- Python's built-in `round` (round-half-to-even, banker's rounding)
on an exact rational. -/
def pyRound (q : ℚ) : ℤ :=
  let f : ℤ := ⌊q⌋
  let frac : ℚ := q - f
  if frac < 1 / 2 then f
  else if 1 / 2 < frac then f + 1
  else if Even f then f else f + 1

/-- Python's `int()` truncation toward zero on an exact rational. -/
def pyTrunc (q : ℚ) : ℤ :=
  if 0 ≤ q then ⌊q⌋ else ⌈q⌉

/-! ## `mud.notation.Time` (src/mud/notation.py, lines 157-229) -/

/-- The state of a `mud.Time`: a beat position `_time` and a grid
`_resolution` (`None` = unquantized).  (src/mud/notation.py line 157). -/
structure Time where
  time : ℚ
  resolution : Option ℚ
  deriving DecidableEq, Repr

namespace Time

/-- `Time.quantize_to(resolution)` (notation.py lines 174-178): re-snaps the
stored value to `resolution * round(time / resolution)` and returns the new
state together with the absolute snapping error.  Python raises
`ZeroDivisionError` on `time / 0`. -/
def quantize_to (t : Time) (resolution : ℚ) : Except PyErr (Time × ℚ) :=
  if resolution = 0 then .error .zeroDivisionError
  else
    let v : ℚ := resolution * pyRound (t.time / resolution)
    .ok (⟨v, some resolution⟩, |t.time - v|)

/-- `Time(time, resolution)` for a numeric (int/float) first argument
(notation.py lines 161-169): stores the value and snaps it when the
resolution is not `None`.  The `type(time) is Time` copy branch is the
identity on the embedded state and is modelled by just reusing the value. -/
def ofRat (x : ℚ) (resolution : Option ℚ) : Except PyErr Time :=
  match resolution with
  | none => .ok ⟨x, none⟩
  | some r => (quantize_to ⟨x, some r⟩ r).map (·.1)

/-- `Time.in_beats()` (notation.py line 191). -/
def in_beats (t : Time) : ℚ := t.time

/-- `Time.in_resolution_steps()` (notation.py lines 186-189):
`int(time / resolution)`, raising `ValueError` when unquantized. -/
def in_resolution_steps (t : Time) : Except PyErr ℤ :=
  match t.resolution with
  | none => .error .valueError
  | some r => if r = 0 then .error .zeroDivisionError else .ok (pyTrunc (t.time / r))

/-- `Time.is_quantized()` (notation.py line 194). -/
def is_quantized (t : Time) : Bool := t.resolution.isSome

/-- `Time.as_quantized(resolution)` (notation.py lines 197-200):
copy, then `quantize_to`. -/
def as_quantized (t : Time) (resolution : ℚ) : Except PyErr Time :=
  (t.quantize_to resolution).map (·.1)

/-- `Time.is_zero()` (notation.py lines 202-203). -/
def is_zero (t : Time) : Bool := |t.time| < 1 / 1000000

/-- Python's two-argument `min` on optional floats, as used by
`Time.__eq__` (notation.py line 221): comparing `None` with a number
raises `TypeError`. -/
def pyMinOpt : Option ℚ → Option ℚ → Except PyErr ℚ
  | some a, some b => .ok (min a b)
  | _, _ => .error .typeError

/-- `Time.__eq__` (notation.py lines 213-224) between two `Time`s (the
`type(other) is not self.__class__` guard is statically excluded here).
Same resolution: step-count comparison when quantized, raw comparison when
both unquantized.  Different resolutions: take `min` of the two resolutions
(raising `TypeError` when one is `None`) and compare step counts after
re-quantizing both. -/
def eq (a b : Time) : Except PyErr Bool :=
  if a.resolution = b.resolution then
    match a.resolution with
    | some _ => do
        let sa ← a.in_resolution_steps
        let sb ← b.in_resolution_steps
        pure (sa = sb)
    | none => pure (a.time = b.time)
  else do
    let r ← pyMinOpt a.resolution b.resolution
    let a' ← a.as_quantized r
    let b' ← b.as_quantized r
    let sa ← a'.in_resolution_steps
    let sb ← b'.in_resolution_steps
    pure (sa = sb)

/-- `Time.__add__` (notation.py lines 226-229): `Time(a._time + b._time)`,
i.e. a fresh `Time` re-quantized to the ambient default resolution `res`
(both operands are `Time`s here, so the `isinstance` guard passes). -/
def add (a b : Time) (res : ℚ) : Except PyErr Time :=
  ofRat (a.time + b.time) (some res)

end Time

/-- A rational `x` lies on the grid of step `res`. -/
def OnGrid (res x : ℚ) : Prop := ∃ k : ℤ, x = res * k

/-! ## `mud.notation.Pitch` (src/mud/notation.py, lines 8-155) -/

/-- The `Pitch.str_to_relative_pitch` lookup table (notation.py lines 13-22),
including the music21 `-` flat spellings.  `none` models a `KeyError`. -/
def str_to_relative_pitch : List Char → Option ℕ
  | ['C'] => some 0
  | ['C', '#'] => some 1
  | ['D', 'b'] => some 1
  | ['D'] => some 2
  | ['D', '#'] => some 3
  | ['E', 'b'] => some 3
  | ['E'] => some 4
  | ['F'] => some 5
  | ['F', '#'] => some 6
  | ['G', 'b'] => some 6
  | ['G'] => some 7
  | ['G', '#'] => some 8
  | ['A', 'b'] => some 8
  | ['A'] => some 9
  | ['A', '#'] => some 10
  | ['B', 'b'] => some 10
  | ['B'] => some 11
  | ['D', '-'] => some 1
  | ['E', '-'] => some 3
  | ['G', '-'] => some 6
  | ['A', '-'] => some 8
  | ['B', '-'] => some 10
  | _ => none

/-- The `Pitch.relative_pitch_to_str` table (notation.py lines 24-32). -/
def relative_pitch_to_str : Fin 12 → List Char
  | 0 => ['C']
  | 1 => ['D', 'b']
  | 2 => ['D']
  | 3 => ['E', 'b']
  | 4 => ['E']
  | 5 => ['F']
  | 6 => ['G', 'b']
  | 7 => ['G']
  | 8 => ['A', 'b']
  | 9 => ['A']
  | 10 => ['B', 'b']
  | 11 => ['B']

/-- Python `int()` on the scanned octave substring: a non-empty run of
decimal digits; anything else raises `ValueError`.  (The substring always
starts with a digit here, so signs are unreachable; `int`'s underscore
grouping is not modelled.) -/
def pyIntOfChars (l : List Char) : Except PyErr ℕ :=
  if l ≠ [] ∧ l.all Char.isDigit then
    .ok (l.foldl (fun acc c => 10 * acc + (c.toNat - 48)) 0)
  else .error .valueError

/-- The state of a `mud.Pitch`: a relative pitch class (the constructors
enforce `0 <= p < 12`, notation.py lines 55 and 148) and an optional
non-negative octave. -/
structure Pitch where
  relative_pitch : Fin 12
  octave : Option ℕ
  deriving DecidableEq, Repr

/-- `Pitch.pitch_string_to_pitch_octave_pair` (notation.py lines 120-149):
scan to the first digit; prefix is the pitch name, suffix the optional
octave integer; unknown names ending in `#`, `b` or `-` resolve as one
semitone away from the base name, wrapped into `[0, 12)`; other unknown
names raise `ValueError`.  The final `assert pitch >= 0 and pitch < 12`
discharges the `Fin 12` bound. -/
def pitch_string_to_pitch_octave_pair (pitchstr : List Char) :
    Except PyErr (Fin 12 × Option ℕ) := do
  let pitchPart := pitchstr.takeWhile (fun c => ¬ c.isDigit)
  let octavePart := pitchstr.dropWhile (fun c => ¬ c.isDigit)
  let octave : Option ℕ ←
    match octavePart with
    | [] => pure none
    | l => do pure (some (← pyIntOfChars l))
  let pitch : ℤ ←
    match str_to_relative_pitch pitchPart with
    | some p => pure (p : ℤ)
    | none =>
      -- the `except KeyError` handler for uncommon variants like 'E#'
      match pitchPart.getLast? with
      | none => .error .indexError       -- `pitch_part[-1]` on an empty string
      | some c =>
        if c = '#' then
          match str_to_relative_pitch pitchPart.dropLast with
          | some b => do
              let p : ℤ := (b : ℤ) + 1
              let p := if p < 0 then p + 12 else p
              let p := if p ≥ 12 then p - 12 else p
              pure p
          | none => .error .keyError     -- uncaught `KeyError` on the base name
        else if c = '-' ∨ c = 'b' then
          match str_to_relative_pitch pitchPart.dropLast with
          | some b => do
              let p : ℤ := (b : ℤ) - 1
              let p := if p < 0 then p + 12 else p
              let p := if p ≥ 12 then p - 12 else p
              pure p
          | none => .error .keyError
        else .error .valueError          -- f'Invalid pitch string {pitchstr}'
  if h : 0 ≤ pitch ∧ pitch < 12 then
    pure (⟨pitch.toNat, by omega⟩, octave)
  else .error .assertionError

/-- `Pitch.__init__` for a string argument (notation.py lines 48-53):
parse the string; raise if the string carried an octave and an explicit
octave argument was also given; otherwise fall back to the argument. -/
def pitchInitStr (s : List Char) (octaveArg : Option ℕ) : Except PyErr Pitch := do
  let (rel, oct) ← pitch_string_to_pitch_octave_pair s
  if octaveArg.isSome ∧ oct.isSome then .error .valueError
  else pure ⟨rel, if oct.isSome then oct else octaveArg⟩

/-- `Pitch.to_midi_pitch` (notation.py lines 111-118). -/
def to_midi_pitch (rel : Fin 12) (octave : ℕ) : ℕ :=
  (rel : ℕ) + (octave + 1) * 12

/-- `Pitch.midi_pitch(assumed_octave)` (notation.py lines 64-72): uses the
stored octave when present, falls back to `assumed_octave`, and raises
`ValueError` when both are absent. -/
def Pitch.midi_pitch (p : Pitch) (assumedOctave : Option ℕ) : Except PyErr ℕ :=
  match p.octave, assumedOctave with
  | none, none => .error .valueError
  | some o, _ => .ok (to_midi_pitch p.relative_pitch o)
  | none, some a => .ok (to_midi_pitch p.relative_pitch a)

/-- `Pitch.name()` (notation.py lines 86-89): the canonical spelling from
`relative_pitch_to_str`, with the octave digits appended when present. -/
def Pitch.name (p : Pitch) : List Char :=
  match p.octave with
  | none => relative_pitch_to_str p.relative_pitch
  | some o => relative_pitch_to_str p.relative_pitch ++ Nat.toDigits 10 o

/-! ## `mud.notation.Note` / `mud.notation.Rest` and `mud.event.Event`

`Note` and `Rest` (notation.py lines 339-416) both expose `pitch()`
(`None` for a rest), `duration()` (a `Time`), `is_note()` and `is_rest()`.

`src/mud/event.py` is not part of the sources here.  Modelled from the
spec: an `Event` "wraps exactly one payload object (a Note — pitch+duration
— or a Rest — duration only) plus a `Time` representing its onset relative
to its containing Span's offset", exposing `unwrap()`, `time()` and the
payload's `pitch()`. -/

/-- The payload of an event: a tagged variant of `Note` (pitch + duration)
or `Rest` (duration only), as in notation.py lines 339-416. -/
inductive MusicObj where
  | note (pitch : Pitch) (duration : Time)
  | rest (duration : Time)
  deriving DecidableEq, Repr

/-- `Note.duration()` / `Rest.duration()`. -/
def MusicObj.duration : MusicObj → Time
  | .note _ d => d
  | .rest d => d

/-- `Note.pitch()` / `Rest.pitch()` (the latter returns `None`,
notation.py lines 389-390). -/
def MusicObj.pitch : MusicObj → Option Pitch
  | .note p _ => some p
  | .rest _ => none

/-- `Note(pitch_string, duration)` (notation.py lines 339-365):
`set_pitch` builds a `Pitch`, `set_duration` wraps the raw duration in a
`Time` quantized at the ambient default resolution `res`. -/
def noteInit (res : ℚ) (pitchStr : List Char) (dur : ℚ) : Except PyErr MusicObj := do
  let p ← pitchInitStr pitchStr none
  let d ← Time.ofRat dur (some res)
  pure (.note p d)

/-- `Rest(duration)` (notation.py lines 385-402). -/
def restInit (res : ℚ) (dur : ℚ) : Except PyErr MusicObj := do
  let d ← Time.ofRat dur (some res)
  pure (.rest d)

/-- Modelled from the spec: `mud.event.Event` (src/mud/event.py is not in
the sources), a payload plus its onset `Time`. -/
structure Event where
  payload : MusicObj
  time : Time
  deriving DecidableEq, Repr

/-- `Event.unwrap()`. -/
def Event.unwrap (e : Event) : MusicObj := e.payload

/-- `Event.pitch()`: the payload's pitch (`None` for a rest). -/
def Event.pitch (e : Event) : Option Pitch := e.payload.pitch

/-- The dynamic Python type of a value, as tested by
`type(event) in events_requiring_nonzero_duration` in
`Span.append_event` (span.py lines 35-36). -/
inductive PyType where
  | event
  | note
  | rest
  deriving DecidableEq, Repr

/-- `type(...)` of an `Event` instance is the class `Event` — never `Note`
or `Rest`. -/
def Event.pyType (_ : Event) : PyType := .event

/-! ## `mud.span.Span` (src/mud/span.py) -/

/-- The state of a `mud.Span`: an offset `Time` and the event list
(span.py lines 16-19). -/
structure Span where
  offset : Time
  events : List Event
  deriving DecidableEq, Repr

/-- `Span.append_event` (span.py lines 34-40).  The guard tests
`type(event) in {Note, Rest}`, but the argument — as constructed by
`Span.__init__` (lines 20-25) — is always an `Event` wrapper, whose
dynamic type is `Event`; the `event.duration` attribute read inside the
guard is modelled through the payload (it is never reached). -/
def append_event (events : List Event) (event : Event) : List Event :=
  if (event.pyType = .note ∨ event.pyType = .rest)
      ∧ event.payload.duration.is_zero then
    -- disallow events with 0 duration from being in the Span
    events
  else events ++ [event]

/-- Python `max()` over a list of floats: raises `ValueError` on an empty
sequence. -/
def pyMax : List ℚ → Except PyErr ℚ
  | [] => .error .valueError
  | x :: xs => .ok (xs.foldl max x)

/-- The end position `event.time().in_beats() +
event.unwrap().duration().in_beats()` of one event (span.py lines 43-45). -/
def endPosition (e : Event) : ℚ :=
  e.time.in_beats + e.unwrap.duration.in_beats

/-- `Span.calculate_span_length` (span.py lines 42-46): the `max` of the
end positions (hence `ValueError` for a span without events). -/
def calculate_span_length (events : List Event) : Except PyErr ℚ :=
  pyMax (events.map endPosition)

/-- `Span.pad_to_length` (span.py lines 48-55): append one `Rest` covering
the gap up to `length`, directly onto `_events` (not via `append_event`). -/
def pad_to_length (res : ℚ) (events : List Event) (length : ℚ) :
    Except PyErr (List Event) := do
  let actual ← calculate_span_length events
  if length < actual then pure events
  else
    let toPad := length - actual
    if toPad ≤ 0 then pure events
    else do
      let d ← Time.ofRat toPad (some res)      -- Rest(to_pad).set_duration
      let t ← Time.ofRat actual (some res)     -- Time(actual_length)
      pure (events ++ [⟨.rest d, t⟩])

/-- The sort key of one event (span.py lines 72-74):
`(e.time().in_resolution_steps(), e.pitch().midi_pitch(assumed_octave=4)
if e.pitch() is not None else 0)`. -/
def sortKey (e : Event) : Except PyErr (ℤ × ℕ) := do
  let steps ← e.time.in_resolution_steps
  match e.pitch with
  | none => pure (steps, 0)
  | some pt => do
      let m ← pt.midi_pitch (some 4)
      pure (steps, m)

/-- Python's ascending comparison of `(int, int)` key tuples
(lexicographic). -/
def keyLE (a b : ℤ × ℕ) : Prop :=
  a.1 < b.1 ∨ (a.1 = b.1 ∧ a.2 ≤ b.2)

instance keyLE.instDecidable : ∀ a b, Decidable (keyLE a b) := fun _ _ => by
  unfold keyLE; infer_instance

/-- The key order lifted to `(key, event)` pairs. -/
def keyedLE (x y : (ℤ × ℕ) × Event) : Prop := keyLE x.1 y.1

instance keyedLE.instDecidable : ∀ x y, Decidable (keyedLE x y) := fun _ _ => by
  unfold keyedLE; infer_instance

instance keyedLE.instIsTotal : IsTotal ((ℤ × ℕ) × Event) keyedLE where
  total x y := by
    unfold keyedLE keyLE
    rcases lt_trichotomy x.1.1 y.1.1 with h | h | h
    · exact Or.inl (Or.inl h)
    · rcases le_total x.1.2 y.1.2 with h2 | h2
      · exact Or.inl (Or.inr ⟨h, h2⟩)
      · exact Or.inr (Or.inr ⟨h.symm, h2⟩)
    · exact Or.inr (Or.inl h)

instance keyedLE.instIsTrans : IsTrans ((ℤ × ℕ) × Event) keyedLE where
  trans x y z := by
    unfold keyedLE keyLE
    rintro (h1 | ⟨h1, h1'⟩) (h2 | ⟨h2, h2'⟩)
    · exact Or.inl (h1.trans h2)
    · exact Or.inl (h2 ▸ h1)
    · exact Or.inl (h1 ▸ h2)
    · exact Or.inr ⟨h1.trans h2, h1'.trans h2'⟩

/-- The decoration pass of `list.sort(key=...)`: compute every event's key,
in list order, propagating the first raised exception. -/
def decorateKeys : List Event → Except PyErr (List ((ℤ × ℕ) × Event))
  | [] => .ok []
  | e :: es => do
      let k ← sortKey e
      let rest ← decorateKeys es
      pure ((k, e) :: rest)

/-- `Span.sort` (span.py lines 71-74): Python's stable `list.sort` by the
composite key.  A stable sort by a total preorder is extensionally unique,
so Python's timsort is modelled by the stable `List.insertionSort` over the
decorated list. -/
def sortEvents (events : List Event) : Except PyErr (List Event) := do
  let keyed ← decorateKeys events
  pure ((keyed.insertionSort keyedLE).map (·.2))

/-- The two shapes accepted by `Span.__init__`'s event argument
(span.py lines 20-25): a pre-built `Event`, or an `(obj, time)` pair
(whose second component the source asserts to be a `Time`). -/
inductive SpanInput where
  | ev (e : Event)
  | pair (payload : MusicObj) (t : Time)
  deriving DecidableEq, Repr

/-- `Event(e[0], e[1])` for a pair, or the event itself. -/
def SpanInput.toEvent : SpanInput → Event
  | .ev e => e
  | .pair p t => ⟨p, t⟩

/-- `Span.__init__` (span.py lines 10-32), with a numeric offset (the
int/float cases of the `type(offset)` check; a `Time` offset is copied
unchanged).  Appends the events through `append_event`; when a target
`length` is given, asserts `actual_length <= length + 0.0001`, pads, and
then asserts `actual_length >= length - 0.0001` — note that
`actual_length` is the value computed BEFORE padding (line 27), not
recomputed after `pad_to_length`. -/
def spanInit (res : ℚ) (inputs : List SpanInput) (offset : ℚ)
    (length? : Option ℚ) (sortFlag : Bool) : Except PyErr Span := do
  let off ← Time.ofRat offset (some res)
  let evs := inputs.foldl (fun acc i => append_event acc i.toEvent) []
  let evs ←
    match length? with
    | none => pure evs
    | some length => do
        let actual ← calculate_span_length evs
        if actual ≤ length + 1 / 10000 then do
          let evs' ← pad_to_length res evs length
          if actual ≥ length - 1 / 10000 then pure evs'
          else .error .assertionError
        else .error .assertionError
  let evs ← if sortFlag then sortEvents evs else pure evs
  pure ⟨off, evs⟩

/-- `Span.num_events` (span.py lines 57-58). -/
def num_events (s : Span) : ℕ := s.events.length

/-- `Span.length` (span.py lines 60-61): `Time(calculate_span_length())`,
a fresh `Time` at the ambient default resolution. -/
def spanLength (res : ℚ) (s : Span) : Except PyErr Time := do
  Time.ofRat (← calculate_span_length s.events) (some res)

/-- `event.time() + offset` applied to each event in order, keeping the
payload: the common shifting step of `Span.move_offset_to_events`
(span.py line 68) and `Span._overlay_two_spans` (lines 116-119). -/
def shiftEvents (res : ℚ) (off : Time) : List Event → Except PyErr (List Event)
  | [] => pure []
  | e :: es => do
      let t ← Time.add e.time off res
      let rest ← shiftEvents res off es
      pure (⟨e.payload, t⟩ :: rest)

/-- `Span.move_offset_to_events` (span.py lines 66-69): add the offset to
every event's onset (`Time.__add__`, so re-quantized at the default
resolution), then reset the offset to `Time(0.0)`. -/
def move_offset_to_events (res : ℚ) (s : Span) : Except PyErr Span := do
  let evs ← shiftEvents res s.offset s.events
  let z ← Time.ofRat 0 (some res)
  pure ⟨z, evs⟩

/-! ## `mud.timeslice.TimeSlice` and `Span.generate_slices` -/

/-- Modelled from the spec: `mud.timeslice.TimeSlice` (src/mud/timeslice.py
is not in the sources), "a derived, non-owning view referencing a subset of
a Span's events whose onset ... falls within `[start, end)` of a half-open
window": the owning span together with the window bounds. -/
structure TimeSlice where
  span : Span
  range : ℚ × ℚ
  deriving DecidableEq, Repr

/-- `Span.get_slice` (span.py lines 76-77). -/
def get_slice (s : Span) (sliceRange : ℚ × ℚ) : TimeSlice :=
  ⟨s, sliceRange⟩

/-- `sliced_events()` of a `TimeSlice`, modelled from the spec: "selects,
without copying, the events of the owning Span whose onset lies in
`[range.start, range.end)`". -/
def TimeSlice.sliced_events (ts : TimeSlice) : List Event :=
  ts.span.events.filter fun e =>
    decide (ts.range.1 ≤ e.time.in_beats) && decide (e.time.in_beats < ts.range.2)

/-- The `while t < length: yield (t, t + r); t += r` loop of
`Span.generate_slices` (span.py lines 80-83), for a positive resolution. -/
def genSlicesLoop (L r : ℚ) (hr : 0 < r) (t : ℚ) : List (ℚ × ℚ) :=
  if t < L then (t, t + r) :: genSlicesLoop L r hr (t + r) else []
termination_by (⌈(L - t) / r⌉).toNat
decreasing_by
  have h1 : (0 : ℚ) < (L - t) / r := div_pos (by linarith) hr
  have h2 : (1 : ℤ) ≤ ⌈(L - t) / r⌉ := Int.ceil_pos.mpr h1
  have h3 : (L - (t + r)) / r = (L - t) / r - 1 := by
    field_simp
    ring
  have h4 : ⌈(L - (t + r)) / r⌉ = ⌈(L - t) / r⌉ - 1 := by
    rw [h3, Int.ceil_sub_one]
  omega

/-- `Span.generate_slices(slice_resolution)` (span.py lines 79-83), as the
finite list of produced slices.  `calculate_span_length` is re-evaluated
each iteration but is pure, so it is read once; it raises on a span with
no events before anything is yielded.  For a non-positive resolution the
Python generator never terminates once `0 < length`; that case is modelled
as an error. -/
def generate_slices (s : Span) (r : ℚ) : Except PyErr (List TimeSlice) := do
  let L ← calculate_span_length s.events
  if hr : 0 < r then
    pure ((genSlicesLoop L r hr 0).map (get_slice s))
  else if 0 < L then .error .nonTerminating
  else pure []

/-! ## `Span.overlay` (span.py lines 110-135) -/

/-- A value passed to the variadic `Span.overlay`: either a `Span`, or any
non-`Span` Python value (modelled as an opaque tag carrying none of
`Span`'s attributes, like an `int`). -/
inductive PyObj where
  | span (s : Span)
  | other (tag : ℕ)
  deriving DecidableEq, Repr

/-- Whether the dynamic value is a `Span` (`isinstance(x, Span)`). -/
def PyObj.isSpan : PyObj → Bool
  | .span _ => true
  | .other _ => false

/-- `Span._overlay_two_spans` (span.py lines 110-121).  The accumulating
first argument is always a `Span` ; the second argument's `isinstance`
check raises `ValueError` for a non-`Span`.  Each of `span_b`'s events is
shifted by `span_b.offset()` and appended to `span_a._events`. -/
def overlay_two_spans (res : ℚ) (spanA : Span) (spanB : PyObj) :
    Except PyErr Span := do
  match spanB with
  | .other _ => .error .valueError   -- 'can only overlay Spans, saw types ...'
  | .span sb => do
      let shifted ← shiftEvents res sb.offset sb.events
      pure ⟨spanA.offset, spanA.events ++ shifted⟩

/-- The `for span in args[1:]` fold of `Span.overlay` (span.py
lines 131-132). -/
def overlayFold (res : ℚ) (acc : Span) : List PyObj → Except PyErr Span
  | [] => pure acc
  | b :: rest => do overlayFold res (← overlay_two_spans res acc b) rest

/-- `Span.overlay(*args)` (span.py lines 123-135): deep-copy the first
argument (immutable values here), fold its offset into its events —
a non-`Span` first argument raises `AttributeError` at this method
lookup — merge the remaining arguments pairwise, assert the result's
offset equals `Time(0)`, and sort. -/
def overlay (res : ℚ) (args : List PyObj) : Except PyErr Span := do
  match args with
  | [] => .error .indexError          -- args[0] on an empty tuple
  | a0 :: rest =>
    match a0 with
    | .other _ => .error .attributeError
    | .span s0 => do
        let r0 ← move_offset_to_events res s0
        let result ← overlayFold res r0 rest
        let t0 ← Time.ofRat 0 (some res)
        let ok ← Time.eq result.offset t0
        if ok then do
          let sorted ← sortEvents result.events
          pure ⟨result.offset, sorted⟩
        else .error .assertionError

/-! ## `mud.notation.Duration` (src/mud/notation.py, lines 231-337) -/

/-- The fixed `Duration.quantized_durations` table (notation.py
lines 237-247), in quarter-note units (`1/1.5 = 2/3`). -/
def quantized_durations : List ℚ :=
  [0, 1/16, 1/8, 1/6, 1/4, 1/3, 1/2, 2/3, 1, 3/2, 2, 3, 4, 6, 8]

/-- The state of a `mud.Duration` (were one constructible): quantized flag,
stored float, optional table label. -/
structure Duration where
  quantized : Bool
  duration : ℚ
  label : Option ℕ
  deriving DecidableEq, Repr

/-- The argument shapes of `Duration.__init__`: another `Duration`, or a
raw float. -/
inductive DurationArg where
  | dur (d : Duration)
  | raw (x : ℚ)
  deriving DecidableEq, Repr

/-- `Duration.__init__` (notation.py lines 249-278): its first statement is
`raise Warning('Duration is deprecated for now!')` (line 250), so every
construction — for any argument — raises, and the remaining body is
unreachable. -/
def durationInit (_duration : Option DurationArg) (_quantized : Bool)
    (_label : Option ℕ) : Except PyErr Duration :=
  .error .warning

/-- Python's `min()` over a list of floats (`ValueError` when empty). -/
def pyMinList : List ℚ → Except PyErr ℚ
  | [] => .error .valueError
  | x :: xs => .ok (xs.foldl min x)

/-- Python's `list.index(x)`: the first index holding `x`, `ValueError`
when absent. -/
def pyIndex : List ℚ → ℚ → Except PyErr ℕ
  | [], _ => .error .valueError
  | y :: ys, x => if y = x then .ok 0 else (pyIndex ys x).map (· + 1)

/-- The selection scan of `Duration.as_quantized` (notation.py
lines 315-318): build `errors = [|raw - dur| for dur in table]` and return
`errors.index(min(errors))`. -/
def quantizeScan (raw : ℚ) : Except PyErr ℕ := do
  let errors := quantized_durations.map fun dur => |raw - dur|
  let m ← pyMinList errors
  pyIndex errors m

/-- `errors[new_duration_label]` (notation.py line 320). -/
def pyGetQ (l : List ℚ) (i : ℕ) : Except PyErr ℚ :=
  if h : i < l.length then .ok (l.get ⟨i, h⟩) else .error .indexError

/-- `Duration.as_quantized` (notation.py lines 304-320): a quantized
duration returns a deep copy of itself (a single value, NOT a
`(q, error)` pair); an unquantized one runs the scan and then calls
`Duration(duration=None, _label=...)` — which raises `Warning` (line 250)
before the pair can be returned. -/
def durationAsQuantized (d : Duration) :
    Except PyErr (Duration ⊕ (Duration × ℚ)) :=
  if d.quantized then .ok (.inl d)
  else do
    let lbl ← quantizeScan d.duration
    let q ← durationInit none true (some lbl)
    let e ← pyGetQ (quantized_durations.map fun dur => |d.duration - dur|) lbl
    pure (.inr (q, e))

/-- Events in sort order: every two events in list order have
non-decreasing sort keys. -/
def SortedByKey (l : List Event) : Prop :=
  l.Pairwise fun a b => ∀ ka kb, sortKey a = .ok ka → sortKey b = .ok kb →
    keyLE ka kb

/-- `Span([(Note('C4', 0), Time(0))])`: one pair whose payload has raw
duration exactly 0, default offset and sorting. -/
def spanC1 (res : ℚ) : Except PyErr Span := do
  let nt ← noteInit res ['C', '4'] 0
  let t ← Time.ofRat 0 (some res)
  spanInit res [.pair nt t] 0 none true

/-- `Span([(Note('C4', 1), Time(0))], length=4)`: a one-beat note at onset
0 with a target length of 4. -/
def spanC2 (res : ℚ) : Except PyErr Span := do
  let nt ← noteInit res ['C', '4'] 1
  let t ← Time.ofRat 0 (some res)
  spanInit res [.pair nt t] 0 (some 4) true

/-! ## Helper lemmas -/

theorem pyRound_intCast (k : ℤ) : pyRound (k : ℚ) = k := by
  unfold pyRound
  simp [Int.floor_intCast]

theorem pyRound_zero : pyRound 0 = 0 := by
  simpa using pyRound_intCast 0

theorem pyTrunc_intCast (k : ℤ) : pyTrunc (k : ℚ) = k := by
  unfold pyTrunc
  rcases le_or_lt 0 k with h | h
  · rw [if_pos (by exact_mod_cast h), Int.floor_intCast]
  · rw [if_neg (by exact_mod_cast not_le.mpr h), Int.ceil_intCast]

theorem pyTrunc_zero : pyTrunc 0 = 0 := by
  simpa using pyTrunc_intCast 0

theorem Time.ofRat_onGrid {res x : ℚ} (hres : res ≠ 0) (hx : OnGrid res x) :
    Time.ofRat x (some res) = .ok ⟨x, some res⟩ := by
  obtain ⟨k, rfl⟩ := hx
  simp only [Time.ofRat, Time.quantize_to, if_neg hres]
  rw [mul_comm res (k : ℚ), mul_div_assoc, div_self hres, mul_one, pyRound_intCast]
  simp [Except.map, mul_comm]

theorem Time.in_resolution_steps_onGrid {res : ℚ} (hres : res ≠ 0) (k : ℤ) :
    Time.in_resolution_steps ⟨res * k, some res⟩ = .ok k := by
  simp only [Time.in_resolution_steps, if_neg hres]
  rw [mul_comm res (k : ℚ), mul_div_assoc, div_self hres, mul_one, pyTrunc_intCast]

theorem foldl_min_le_init (xs : List ℚ) (x : ℚ) : xs.foldl min x ≤ x := by
  induction xs generalizing x with
  | nil => exact le_refl x
  | cons y ys ih => exact le_trans (ih (min x y)) (min_le_left x y)

theorem foldl_min_le (xs : List ℚ) (x y : ℚ) (hy : y ∈ x :: xs) :
    xs.foldl min x ≤ y := by
  induction xs generalizing x with
  | nil => simp at hy; simp [hy]
  | cons z zs ih =>
    rcases List.mem_cons.mp hy with rfl | hy'
    · exact foldl_min_le_init _ _
    · rcases List.mem_cons.mp hy' with rfl | hy'' 
      · exact le_trans (foldl_min_le_init zs (min x y)) (min_le_right x y)
      · exact ih (min x z) (List.mem_cons_of_mem _ hy'')

theorem foldl_min_mem (xs : List ℚ) (x : ℚ) : xs.foldl min x ∈ x :: xs := by
  induction xs generalizing x with
  | nil => simp
  | cons y ys ih =>
    have h := ih (min x y)
    rcases List.mem_cons.mp h with h' | h'
    · rcases min_choice x y with hc | hc <;> rw [List.foldl_cons, h', hc] <;> simp
    · simp [List.foldl_cons, List.mem_cons.mpr (Or.inr (List.mem_cons_of_mem _ h'))]

theorem foldl_max_le_init (xs : List ℚ) (x : ℚ) : x ≤ xs.foldl max x := by
  induction xs generalizing x with
  | nil => exact le_refl x
  | cons y ys ih => exact le_trans (le_max_left x y) (ih (max x y))

theorem le_foldl_max (xs : List ℚ) (x y : ℚ) (hy : y ∈ x :: xs) :
    y ≤ xs.foldl max x := by
  induction xs generalizing x with
  | nil => simp at hy; simp [hy]
  | cons z zs ih =>
    rcases List.mem_cons.mp hy with rfl | hy'
    · exact foldl_max_le_init _ _
    · rcases List.mem_cons.mp hy' with rfl | hy''
      · exact le_trans (le_max_right x y) (foldl_max_le_init zs (max x y))
      · exact ih (max x z) (List.mem_cons_of_mem _ hy'')

theorem foldl_max_mem (xs : List ℚ) (x : ℚ) : xs.foldl max x ∈ x :: xs := by
  induction xs generalizing x with
  | nil => simp
  | cons y ys ih =>
    have h := ih (max x y)
    rcases List.mem_cons.mp h with h' | h'
    · rcases max_choice x y with hc | hc <;> rw [List.foldl_cons, h', hc] <;> simp
    · simp [List.foldl_cons, List.mem_cons.mpr (Or.inr (List.mem_cons_of_mem _ h'))]

theorem pyMax_spec (l : List ℚ) (hl : l ≠ []) :
    ∃ m, pyMax l = .ok m ∧ m ∈ l ∧ ∀ y ∈ l, y ≤ m := by
  match l with
  | [] => exact absurd rfl hl
  | x :: xs =>
    exact ⟨xs.foldl max x, rfl, foldl_max_mem xs x,
      fun y hy => le_foldl_max xs x y hy⟩

theorem pyMinList_spec (l : List ℚ) (hl : l ≠ []) :
    ∃ m, pyMinList l = .ok m ∧ m ∈ l ∧ ∀ y ∈ l, m ≤ y := by
  match l with
  | [] => exact absurd rfl hl
  | x :: xs =>
    exact ⟨xs.foldl min x, rfl, foldl_min_mem xs x,
      fun y hy => foldl_min_le xs x y hy⟩

theorem pyIndex_spec (l : List ℚ) (x : ℚ) (hx : x ∈ l) :
    ∃ i, pyIndex l x = .ok i ∧ ∃ h : i < l.length, l.get ⟨i, h⟩ = x ∧
      ∀ j (hj : j < l.length), j < i → l.get ⟨j, hj⟩ ≠ x := by
  induction l with
  | nil => simp at hx
  | cons y ys ih =>
    by_cases hxy : y = x
    · refine ⟨0, by simp [pyIndex, hxy], by simp, by simpa using hxy, ?_⟩
      intro j hj hj0
      omega
    · have hx' : x ∈ ys := by
        rcases List.mem_cons.mp hx with rfl | h
        · exact absurd rfl hxy
        · exact h
      obtain ⟨i, h1, hlt, h2, h3⟩ := ih hx'
      refine ⟨i + 1, ?_, by simpa using hlt, by simpa using h2, ?_⟩
      · simp [pyIndex, hxy, h1, Except.map]
      · intro j hj hji
        match j with
        | 0 => simpa using hxy
        | j' + 1 =>
          have : j' < ys.length := by simpa using hj
          simpa using h3 j' this (by omega)


theorem Time.in_resolution_steps_eq {t : Time} {r : ℚ}
    (h : t.resolution = some r) (hr : r ≠ 0) :
    t.in_resolution_steps = .ok (pyTrunc (t.time / r)) := by
  simp only [Time.in_resolution_steps, h, if_neg hr]

theorem errorsList_get (raw : ℚ) (j : ℕ) (hj : j < quantized_durations.length)
    (h : j < (quantized_durations.map fun dur => |raw - dur|).length) :
    (quantized_durations.map fun dur => |raw - dur|).get ⟨j, h⟩ =
      |raw - quantized_durations.getD j 0| := by
  rw [List.get_map]
  congr 1
  rw [List.getD_eq_get _ _ hj]

theorem exceptBind_ok {ε α β : Type} (a : α) (k : α → Except ε β) :
    (Except.ok a >>= k) = k a := rfl

theorem exceptBind_err {ε α β : Type} (e : ε) (k : α → Except ε β) :
    ((Except.error e : Except ε α) >>= k) = Except.error e := rfl

theorem exceptPure_eq {ε α : Type} (a : α) :
    (pure a : Except ε α) = Except.ok a := rfl

/-! ## Claim C3: the `Duration` quantizer -/

/-- **C3** (amended): the selection scan of `Duration.as_quantized`
(notation.py lines 315-318) picks the table entry minimizing
`|raw - entry|`, the first minimal index winning ties — in particular
`0.26` maps to table index 4 (`1/4`) with error `0.01` — but the claim's
operation as a whole cannot return this pair: `Duration.__init__`
unconditionally raises `Warning` (line 250), see the counterexample. -/
theorem claim_C3 :
    (∀ raw : ℚ, ∃ i, quantizeScan raw = .ok i ∧
      i < quantized_durations.length ∧
      (∀ j, j < quantized_durations.length →
        |raw - quantized_durations.getD i 0| ≤ |raw - quantized_durations.getD j 0|) ∧
      (∀ j, j < i →
        |raw - quantized_durations.getD j 0| > |raw - quantized_durations.getD i 0|)) ∧
    quantizeScan (26/100) = .ok 4 ∧
    quantized_durations.getD 4 0 = 1/4 ∧
    |(26:ℚ)/100 - quantized_durations.getD 4 0| = 1/100 := by
  refine ⟨?_, by with_unfolding_all decide, by with_unfolding_all decide,
    by with_unfolding_all decide⟩
  intro raw
  obtain ⟨m, hm, hmem, hle⟩ :=
    pyMinList_spec (quantized_durations.map fun dur => |raw - dur|)
      (by simp [quantized_durations])
  obtain ⟨i, hidx, hlt, hget, hfirst⟩ := pyIndex_spec _ m hmem
  have hlen : (quantized_durations.map fun dur => |raw - dur|).length
      = quantized_durations.length := by simp
  have hilen : i < quantized_durations.length := by omega
  refine ⟨i, ?_, hilen, ?_, ?_⟩
  · show (do
        let m' ← pyMinList (quantized_durations.map fun dur => |raw - dur|)
        pyIndex (quantized_durations.map fun dur => |raw - dur|) m')
      = Except.ok i
    rw [hm]
    exact hidx
  · intro j hj
    have hjlen : j < (quantized_durations.map fun dur => |raw - dur|).length := by
      omega
    rw [← errorsList_get raw i hilen hlt, ← errorsList_get raw j hj hjlen, hget]
    exact hle _ (List.get_mem _ _ _)
  · intro j hji
    have hjq : j < quantized_durations.length := by omega
    have hjlen : j < (quantized_durations.map fun dur => |raw - dur|).length := by
      omega
    rw [← errorsList_get raw i hilen hlt, ← errorsList_get raw j hjq hjlen, hget]
    have hne' := hfirst j hjlen hji
    have hle' := hle _ (List.get_mem _ j hjlen)
    exact lt_of_le_of_ne hle' (fun hc => hne' hc.symm)

/-- Witness for C3: the general scan property applied at `raw = 0.26`. -/
theorem claim_C3_witness :
    ∃ i, quantizeScan (26/100) = .ok i ∧
      i < quantized_durations.length ∧
      (∀ j, j < quantized_durations.length →
        |(26:ℚ)/100 - quantized_durations.getD i 0| ≤
          |(26:ℚ)/100 - quantized_durations.getD j 0|) ∧
      (∀ j, j < i →
        |(26:ℚ)/100 - quantized_durations.getD j 0| >
          |(26:ℚ)/100 - quantized_durations.getD i 0|) :=
  claim_C3.1 (26/100)

/-- Counterexample for C3 as frozen: quantizing `0.26` does not return the
pair `(0.25, 0.01)` — `Duration(0.26)` raises `Warning` at construction
(notation.py line 250), and even `as_quantized` on an unquantized
`Duration` state raises the same `Warning` when it rebuilds the quantized
result. -/
theorem claim_C3_cex :
    durationInit (some (.raw (26/100))) true none = .error .warning ∧
    durationAsQuantized ⟨false, 26/100, none⟩ = .error .warning := by
  exact ⟨rfl, by with_unfolding_all decide⟩

/-! ## Claim C10: `Time.__eq__` on mixed quantization -/

/-- **C10**: comparing a quantized `Time` with an unquantized one raises
`TypeError` (from `min(None, number)`, notation.py line 221) instead of
returning a boolean, while two quantized (nonzero-resolution) or two
unquantized `Time`s always compare to a boolean. -/
theorem claim_C10 (a b : Time)
    (ha : a.resolution ≠ some 0) (hb : b.resolution ≠ some 0) :
    (a.resolution.isSome ≠ b.resolution.isSome →
      Time.eq a b = .error .typeError) ∧
    ((a.resolution.isSome ∧ b.resolution.isSome) ∨
        (a.resolution = none ∧ b.resolution = none) →
      ∃ v : Bool, Time.eq a b = .ok v) := by
  obtain ⟨ta, ares⟩ := a
  obtain ⟨tb, bres⟩ := b
  constructor
  · intro hmix
    rcases ares with _ | ra <;> rcases bres with _ | rb
    · simp at hmix
    · simp only [Time.eq]
      rw [if_neg (by simp)]
      rfl
    · simp only [Time.eq]
      rw [if_neg (by simp)]
      rfl
    · simp at hmix
  · intro hq
    rcases ares with _ | ra <;> rcases bres with _ | rb
    · refine ⟨decide (ta = tb), ?_⟩
      simp only [Time.eq]
      rw [if_pos trivial]
      rfl
    · rcases hq with ⟨h1, _⟩ | ⟨_, h2⟩
      · simp at h1
      · simp at h2
    · rcases hq with ⟨_, h2⟩ | ⟨h1, _⟩
      · simp at h2
      · simp at h1
    · have hra0 : ra ≠ 0 := by simpa using ha
      have hrb0 : rb ≠ 0 := by simpa using hb
      by_cases hab : ra = rb
      · subst hab
        refine ⟨decide (pyTrunc (ta / ra) = pyTrunc (tb / ra)), ?_⟩
        simp only [Time.eq]
        rw [if_pos trivial]
        simp only [Time.in_resolution_steps, if_neg hra0]
        rfl
      · have hmin : min ra rb ≠ 0 := by
          rcases min_choice ra rb with hc | hc <;> rw [hc] <;> assumption
        refine ⟨decide
          (pyTrunc ((min ra rb) * pyRound (ta / (min ra rb)) / (min ra rb)) =
           pyTrunc ((min ra rb) * pyRound (tb / (min ra rb)) / (min ra rb))), ?_⟩
        simp only [Time.eq]
        rw [if_neg (by simpa using hab)]
        simp [Time.pyMinOpt, Time.as_quantized, Time.quantize_to,
          Time.in_resolution_steps, hmin, exceptBind_ok, Except.map]

/-- Witness for C10: a quantized and an unquantized `Time` at beat 1. -/
theorem claim_C10_witness :
    ((⟨1, some (1/4)⟩ : Time).resolution ≠ some 0) ∧
    ((⟨1, none⟩ : Time).resolution ≠ some 0) ∧
    Time.eq ⟨1, some (1/4)⟩ ⟨1, none⟩ = .error .typeError := by
  refine ⟨by with_unfolding_all decide, by simp, ?_⟩
  exact (claim_C10 ⟨1, some (1/4)⟩ ⟨1, none⟩ (by with_unfolding_all decide)
    (by simp)).1 (by simp)

/-! ## Claim C9: pitch string round-trip -/

/-- **C9**: for every valid pitch string without an octave part,
constructing a `Pitch` succeeds and `name()` returns the canonical
spelling of the parsed relative pitch from the fixed
`relative_pitch_to_str` table (flat spellings normalized to the canonical
`b` form), and that canonical name re-parses to the same relative pitch. -/
theorem claim_C9 (s : List Char) (rel : Fin 12)
    (hp : pitch_string_to_pitch_octave_pair s = .ok (rel, none)) :
    ∃ p : Pitch, pitchInitStr s none = .ok p ∧
      p.name = relative_pitch_to_str rel ∧
      pitch_string_to_pitch_octave_pair p.name = .ok (rel, none) := by
  refine ⟨⟨rel, none⟩, ?_, rfl, ?_⟩
  · simp only [pitchInitStr, hp, exceptBind_ok]
    simp only [Option.isSome_none, Bool.false_and, if_neg]
    rfl
  · show pitch_string_to_pitch_octave_pair (relative_pitch_to_str rel)
      = .ok (rel, none)
    clear hp
    revert rel
    decide

/-- Witness for C9: the sharp spelling `C#` parses to pitch class 1 and
renames to the canonical flat spelling `Db`, which re-parses to 1. -/
theorem claim_C9_witness :
    pitch_string_to_pitch_octave_pair ['C', '#'] = .ok ((1 : Fin 12), none) ∧
    ∃ p : Pitch, pitchInitStr ['C', '#'] none = .ok p ∧
      p.name = relative_pitch_to_str 1 ∧
      pitch_string_to_pitch_octave_pair p.name = .ok ((1 : Fin 12), none) :=
  ⟨by decide, claim_C9 ['C', '#'] 1 (by decide)⟩

/-! ## Claim C6: span length -/

/-- **C6** (amended): for a non-empty `Span`, `calculate_span_length` is
exactly the maximum of (onset + duration) over the events, and `length()`
wraps that value in a default-resolution `Time` (exactly, whenever the
value lies on the default grid); for a `Span` with zero events both raise
`ValueError` (`max()` of an empty sequence) instead of returning zero. -/
theorem claim_C6 (span : Span) :
    (span.events = [] → calculate_span_length span.events = .error .valueError) ∧
    (span.events ≠ [] →
      ∃ M, calculate_span_length span.events = .ok M ∧
        M ∈ span.events.map endPosition ∧
        (∀ e ∈ span.events, endPosition e ≤ M) ∧
        (∀ res : ℚ, res ≠ 0 → OnGrid res M →
          spanLength res span = .ok ⟨M, some res⟩)) := by
  constructor
  · intro h
    rw [calculate_span_length, h]
    rfl
  · intro h
    obtain ⟨M, hM, hmem, hle⟩ :=
      pyMax_spec (span.events.map endPosition) (by simpa using h)
    refine ⟨M, hM, hmem, ?_, ?_⟩
    · intro e he
      exact hle _ (List.mem_map_of_mem _ he)
    · intro res hres hgrid
      simp only [spanLength, calculate_span_length] at hM ⊢
      rw [hM, exceptBind_ok]
      exact Time.ofRat_onGrid hres hgrid

/-- Witness for C6: a one-note span with end position 1. -/
theorem claim_C6_witness :
    ((⟨⟨0, some 1⟩, [⟨.note ⟨0, some 4⟩ ⟨1, some 1⟩, ⟨0, some 1⟩⟩]⟩ : Span).events ≠ []) ∧
    ∃ M, calculate_span_length
        (⟨⟨0, some 1⟩, [⟨.note ⟨0, some 4⟩ ⟨1, some 1⟩, ⟨0, some 1⟩⟩]⟩ : Span).events = .ok M ∧
      M ∈ (⟨⟨0, some 1⟩, [⟨.note ⟨0, some 4⟩ ⟨1, some 1⟩, ⟨0, some 1⟩⟩]⟩ : Span).events.map endPosition ∧
      (∀ e ∈ (⟨⟨0, some 1⟩, [⟨.note ⟨0, some 4⟩ ⟨1, some 1⟩, ⟨0, some 1⟩⟩]⟩ : Span).events,
        endPosition e ≤ M) ∧
      (∀ res : ℚ, res ≠ 0 → OnGrid res M →
        spanLength res ⟨⟨0, some 1⟩, [⟨.note ⟨0, some 4⟩ ⟨1, some 1⟩, ⟨0, some 1⟩⟩]⟩ = .ok ⟨M, some res⟩) :=
  ⟨by simp, (claim_C6 _).2 (by simp)⟩

/-- Counterexample for C6 as frozen: on a `Span` with zero events,
`calculate_span_length` and `length()` raise `ValueError` (Python `max()`
of an empty sequence) — they do not return zero. -/
theorem claim_C6_cex :
    calculate_span_length ([] : List Event) = .error .valueError ∧
    spanLength (1/4) ⟨⟨0, some (1/4)⟩, []⟩ = .error .valueError :=
  ⟨rfl, rfl⟩

/-! ## Claim C5: slice generation -/

theorem genSlicesLoop_eq (L r : ℚ) (hr : 0 < r) :
    ∀ (n : ℕ) (t : ℚ), (⌈(L - t) / r⌉).toNat = n →
      genSlicesLoop L r hr t =
        (List.range n).map
          (fun i : ℕ => (t + (i : ℚ) * r, t + (i : ℚ) * r + r)) := by
  intro n
  induction n with
  | zero =>
    intro t hn
    have hceil : ⌈(L - t) / r⌉ ≤ 0 := by omega
    have hLt : ¬ t < L := by
      intro hc
      have hpos : 0 < (L - t) / r := div_pos (by linarith) hr
      have := Int.ceil_pos.mpr hpos
      omega
    rw [genSlicesLoop, if_neg hLt]
    simp
  | succ n ih =>
    intro t hn
    have hpos : 0 < ⌈(L - t) / r⌉ := by omega
    have hpos' : 0 < (L - t) / r := Int.ceil_pos.mp hpos
    have htL : t < L := by
      by_contra hc
      push_neg at hc
      have h3 : (L - t) / r ≤ 0 := by
        rw [div_nonpos_iff]
        exact Or.inr ⟨by linarith, hr.le⟩
      linarith
    have hstep : (⌈(L - (t + r)) / r⌉).toNat = n := by
      have h3 : (L - (t + r)) / r = (L - t) / r - 1 := by
        field_simp
        ring
      rw [h3, Int.ceil_sub_one]
      omega
    rw [genSlicesLoop, if_pos htL, ih (t + r) hstep, List.range_succ_eq_map]
    simp only [List.map_cons, List.map_map]
    congr 1
    · norm_num
    · refine List.map_congr_left ?_
      intro i _
      simp only [Function.comp]
      refine Prod.ext_iff.mpr ⟨?_, ?_⟩ <;> push_cast <;> ring

/-- **C5**: for every `Span` that has a natural length `L` (i.e. at least
one event) and positive slice resolution `r`, `generate_slices` yields
exactly the windows `[k*r, (k+1)*r)` for `k = 0, 1, ...` for as long as the
window start `k*r` is strictly below `L`. -/
theorem claim_C5 (s : Span) (r : ℚ) (hr : 0 < r) (L : ℚ)
    (hL : calculate_span_length s.events = .ok L) :
    ∃ n : ℕ, generate_slices s r =
        .ok ((List.range n).map fun k : ℕ =>
          get_slice s ((k : ℚ) * r, (k : ℚ) * r + r)) ∧
      ∀ k : ℕ, ((k : ℚ) * r < L ↔ k < n) := by
  refine ⟨(⌈L / r⌉).toNat, ?_, ?_⟩
  · simp only [generate_slices, hL, exceptBind_ok]
    rw [dif_pos hr]
    rw [genSlicesLoop_eq L r hr (⌈L / r⌉).toNat 0 (by norm_num)]
    simp only [List.map_map]
    refine congrArg Except.ok (List.map_congr_left ?_)
    intro i _
    simp [get_slice, Function.comp]
  · intro k
    constructor
    · intro hk
      have h1 : (k : ℚ) < L / r := (lt_div_iff hr).mpr hk
      have h2 : (k : ℤ) < ⌈L / r⌉ := Int.lt_ceil.mpr (by exact_mod_cast h1)
      omega
    · intro hk
      have h2 : (k : ℤ) < ⌈L / r⌉ := by omega
      have h1 : ((k : ℤ) : ℚ) < L / r := Int.lt_ceil.mp h2
      have h1' : (k : ℚ) < L / r := by exact_mod_cast h1
      exact (lt_div_iff hr).mp h1'

/-- Witness for C5: a span of natural length 4 sliced at resolution 1
(which, by the theorem's window property, forces exactly 4 windows). -/
theorem claim_C5_witness :
    calculate_span_length
        (⟨⟨0, some 1⟩, [⟨.note ⟨0, some 4⟩ ⟨4, some 1⟩, ⟨0, some 1⟩⟩]⟩ : Span).events
      = .ok 4 ∧
    ∃ n : ℕ, generate_slices (⟨⟨0, some 1⟩, [⟨.note ⟨0, some 4⟩ ⟨4, some 1⟩, ⟨0, some 1⟩⟩]⟩ : Span) 1 =
        .ok ((List.range n).map fun k : ℕ =>
          get_slice (⟨⟨0, some 1⟩, [⟨.note ⟨0, some 4⟩ ⟨4, some 1⟩, ⟨0, some 1⟩⟩]⟩ : Span)
            ((k : ℚ) * 1, (k : ℚ) * 1 + 1)) ∧
      ∀ k : ℕ, ((k : ℚ) * 1 < 4 ↔ k < n) :=
  ⟨by with_unfolding_all decide,
    claim_C5 _ 1 (by norm_num) 4 (by with_unfolding_all decide)⟩

/-! ## Claim C7: sort order -/

theorem decorateKeys_ok :
    ∀ {evs : List Event} {keyed : List ((ℤ × ℕ) × Event)},
    decorateKeys evs = .ok keyed →
    keyed.map (·.2) = evs ∧ ∀ p ∈ keyed, sortKey p.2 = .ok p.1 := by
  intro evs
  induction evs with
  | nil =>
    intro keyed h
    simp only [decorateKeys] at h
    cases h
    simp
  | cons e es ih =>
    intro keyed h
    cases hk : sortKey e with
    | error err =>
      simp only [decorateKeys, hk, exceptBind_err] at h
      exact Except.noConfusion h
    | ok k =>
      cases hr : decorateKeys es with
      | error err =>
        simp only [decorateKeys, hk, hr, exceptBind_ok, exceptBind_err] at h
        exact Except.noConfusion h
      | ok rest =>
        simp only [decorateKeys, hk, hr, exceptBind_ok, exceptPure_eq,
          Except.ok.injEq] at h
        subst h
        obtain ⟨hmap, hall⟩ := ih hr
        constructor
        · simp [hmap]
        · intro p hp
          rcases List.mem_cons.mp hp with rfl | hp'
          · simpa using hk
          · exact hall p hp'

theorem decorateKeys_total :
    ∀ {evs : List Event}, (∀ e ∈ evs, ∃ k, sortKey e = .ok k) →
    ∃ keyed, decorateKeys evs = .ok keyed := by
  intro evs
  induction evs with
  | nil => exact fun _ => ⟨[], rfl⟩
  | cons e es ih =>
    intro h
    obtain ⟨k, hk⟩ := h e (List.mem_cons_self e es)
    obtain ⟨rest, hr⟩ := ih fun x hx => h x (List.mem_cons_of_mem _ hx)
    exact ⟨(k, e) :: rest, by
      simp only [decorateKeys, hk, hr, exceptBind_ok, exceptPure_eq]⟩

theorem sortEvents_ok {evs sorted : List Event}
    (h : sortEvents evs = .ok sorted) :
    sorted.Perm evs ∧ SortedByKey sorted := by
  cases hd : decorateKeys evs with
  | error err =>
    simp only [sortEvents, hd, exceptBind_err] at h
    exact Except.noConfusion h
  | ok keyed =>
    simp only [sortEvents, hd, exceptBind_ok, exceptPure_eq,
      Except.ok.injEq] at h
    subst h
    obtain ⟨hmap, hkeys⟩ := decorateKeys_ok hd
    have hper := List.perm_insertionSort keyedLE keyed
    have hsorted : (keyed.insertionSort keyedLE).Pairwise keyedLE :=
      List.sorted_insertionSort keyedLE keyed
    constructor
    · rw [← hmap]
      exact hper.map (·.2)
    · have hkeys' : ∀ p ∈ keyed.insertionSort keyedLE, sortKey p.2 = .ok p.1 :=
        fun p hp => hkeys p (hper.mem_iff.mp hp)
      have hpw : (keyed.insertionSort keyedLE).Pairwise
          (fun p q => ∀ ka kb, sortKey p.2 = .ok ka → sortKey q.2 = .ok kb →
            keyLE ka kb) := by
        refine List.Pairwise.imp_of_mem ?_ hsorted
        intro p q hp hq hpq ka kb h1 h2
        have e1 : ka = p.1 := by
          have := hkeys' p hp
          rw [h1] at this
          exact (Except.ok.injEq _ _).mp this
        have e2 : kb = q.1 := by
          have := hkeys' q hq
          rw [h2] at this
          exact (Except.ok.injEq _ _).mp this
        rw [e1, e2]
        exact hpq
      exact List.pairwise_map.mpr hpw

/-- **C7**: a successful `Span.sort` permutes the events into
non-decreasing composite-key order — primarily the onset's quantized step
count, secondarily the MIDI pitch under assumed octave 4 with rests keyed
as 0 — and at equal step count a rest's key is strictly below any pitched
event's key (whose MIDI value is at least 12), so rests come first and
notes order by ascending MIDI pitch. -/
theorem claim_C7 :
    (∀ (evs sorted : List Event), sortEvents evs = .ok sorted →
      sorted.Perm evs ∧ SortedByKey sorted) ∧
    (∀ (e1 e2 : Event) (k1 k2 : ℤ × ℕ),
      sortKey e1 = .ok k1 → sortKey e2 = .ok k2 →
      e1.pitch = none → e2.pitch.isSome →
      k1.1 = k2.1 → (12 ≤ k2.2 ∧ keyLE k1 k2 ∧ ¬ keyLE k2 k1)) := by
  constructor
  · exact fun _ _ h => sortEvents_ok h
  · intro e1 e2 k1 k2 h1 h2 hp1 hp2 heq
    cases hs1 : e1.time.in_resolution_steps with
    | error err =>
      simp only [sortKey, hs1, exceptBind_err] at h1
      exact Except.noConfusion h1
    | ok s1 =>
      simp only [sortKey, hs1, exceptBind_ok, hp1, exceptPure_eq,
        Except.ok.injEq] at h1
      cases hpt : e2.pitch with
      | none => rw [hpt] at hp2; simp at hp2
      | some pt =>
        cases hs2 : e2.time.in_resolution_steps with
        | error err =>
          simp only [sortKey, hs2, exceptBind_err] at h2
          exact Except.noConfusion h2
        | ok s2 =>
          simp only [sortKey, hs2, exceptBind_ok, hpt, exceptPure_eq] at h2
          have hk2 : ∃ o : ℕ, k2 = (s2, to_midi_pitch pt.relative_pitch o) := by
            cases hoct : pt.octave with
            | none =>
              simp only [Pitch.midi_pitch, hoct, exceptBind_ok,
                exceptPure_eq, Except.ok.injEq] at h2
              exact ⟨4, h2.symm⟩
            | some o =>
              simp only [Pitch.midi_pitch, hoct, exceptBind_ok,
                exceptPure_eq, Except.ok.injEq] at h2
              exact ⟨o, h2.symm⟩
          obtain ⟨o, hk2⟩ := hk2
          have hmidi : 12 ≤ to_midi_pitch pt.relative_pitch o := by
            simp only [to_midi_pitch]
            nlinarith [pt.relative_pitch.2, Nat.zero_le o]
          subst h1
          refine ⟨by rw [hk2]; exact hmidi, ?_, ?_⟩
          · exact Or.inr ⟨heq, by rw [hk2]; exact Nat.zero_le _⟩
          · intro hc
            rcases hc with hlt | ⟨_, hle⟩
            · rw [← heq] at hlt
              exact lt_irrefl _ hlt
            · rw [hk2] at hle
              simp at hle
              omega

/-- Witness for C7: a note `A4` and a rest at the same onset sort with the
rest first. -/
theorem claim_C7_witness :
    sortEvents
        [⟨.note ⟨9, some 4⟩ ⟨1, some 1⟩, ⟨0, some 1⟩⟩,
         ⟨.rest ⟨1, some 1⟩, ⟨0, some 1⟩⟩] =
      .ok [⟨.rest ⟨1, some 1⟩, ⟨0, some 1⟩⟩,
           ⟨.note ⟨9, some 4⟩ ⟨1, some 1⟩, ⟨0, some 1⟩⟩] ∧
    ([⟨.rest ⟨1, some 1⟩, ⟨0, some 1⟩⟩,
      ⟨.note ⟨9, some 4⟩ ⟨1, some 1⟩, ⟨0, some 1⟩⟩] : List Event).Perm
        [⟨.note ⟨9, some 4⟩ ⟨1, some 1⟩, ⟨0, some 1⟩⟩,
         ⟨.rest ⟨1, some 1⟩, ⟨0, some 1⟩⟩] ∧
    SortedByKey
        [⟨.rest ⟨1, some 1⟩, ⟨0, some 1⟩⟩,
         ⟨.note ⟨9, some 4⟩ ⟨1, some 1⟩, ⟨0, some 1⟩⟩] := by
  refine ⟨by with_unfolding_all decide, ?_⟩
  exact claim_C7.1 _ _ (by with_unfolding_all decide)

/-! ## Claims C1 and C2: `Span` construction -/

theorem onGrid_zero (res : ℚ) : OnGrid res 0 := ⟨0, by simp⟩

theorem Time.in_resolution_steps_zero {res : ℚ} (hres : res ≠ 0) :
    Time.in_resolution_steps ⟨0, some res⟩ = .ok 0 := by
  simpa using Time.in_resolution_steps_onGrid hres 0

theorem sortEvents_singleton (e : Event) (k : ℤ × ℕ)
    (hk : sortKey e = .ok k) : sortEvents [e] = .ok [e] := by
  simp only [sortEvents, decorateKeys, hk, exceptBind_ok, exceptPure_eq]
  simp [List.insertionSort]

theorem spanC1_eval {res : ℚ} (hres : res ≠ 0) :
    spanC1 res =
      .ok ⟨⟨0, some res⟩, [⟨.note ⟨0, some 4⟩ ⟨0, some res⟩, ⟨0, some res⟩⟩]⟩ := by
  have h0 : Time.ofRat 0 (some res) = .ok ⟨0, some res⟩ :=
    Time.ofRat_onGrid hres (onGrid_zero res)
  have hp : pitchInitStr ['C', '4'] none = .ok ⟨0, some 4⟩ := by decide
  have hnote : noteInit res ['C', '4'] 0 = .ok (.note ⟨0, some 4⟩ ⟨0, some res⟩) := by
    simp only [noteInit, hp, exceptBind_ok, h0, exceptPure_eq]
  have hkey : sortKey ⟨.note ⟨0, some 4⟩ ⟨0, some res⟩, ⟨0, some res⟩⟩
      = .ok (0, 60) := by
    simp only [sortKey, Time.in_resolution_steps_zero hres, exceptBind_ok,
      Event.pitch, MusicObj.pitch, Pitch.midi_pitch, to_midi_pitch,
      exceptPure_eq]
    norm_num
  have hsort := sortEvents_singleton _ _ hkey
  simp only [spanC1, hnote, exceptBind_ok, h0, spanInit, List.foldl,
    SpanInput.toEvent, append_event, Event.pyType]
  simp only [reduceCtorEq, false_or, false_and, if_false, List.nil_append,
    exceptBind_ok]
  simp only [exceptPure_eq, exceptBind_ok, if_true, hsort]

/-- **C1**: the zero-duration guard in `Span.append_event` is dead code —
its `type(event) in {Note, Rest}` test never holds for the `Event` wrappers
it is given — so `append_event` always appends, and
`Span([(Note('C4', 0), Time(0))])` retains its zero-duration event
(`num_events() == 1`, not 0 as claimed). -/
theorem claim_C1 :
    (∀ (evs : List Event) (e : Event), append_event evs e = evs ++ [e]) ∧
    (∀ res : ℚ, res ≠ 0 →
      ∃ sp, spanC1 res = .ok sp ∧ num_events sp = 1 ∧
        ∀ e ∈ sp.events, e.payload.duration.is_zero = true) := by
  constructor
  · intro evs e
    simp [append_event, Event.pyType]
  · intro res hres
    refine ⟨_, spanC1_eval hres, rfl, ?_⟩
    intro e he
    rcases List.mem_singleton.mp he with rfl
    simp [Time.is_zero, MusicObj.duration]

/-- Witness for C1 at the default-style resolution 1/16: the constructed
span holds exactly one event, of zero duration. -/
theorem claim_C1_witness :
    ((1 : ℚ)/16 ≠ 0) ∧
    ∃ sp, spanC1 (1/16) = .ok sp ∧ num_events sp = 1 ∧
      ∀ e ∈ sp.events, e.payload.duration.is_zero = true :=
  ⟨by norm_num, claim_C1.2 (1/16) (by norm_num)⟩

/-- **C2**: `Span([(Note('C4', 1), Time(0))], length=4)` raises
`AssertionError` instead of succeeding with a padded trailing rest: the
assertion after `pad_to_length` (span.py line 30) re-tests the *pre-pad*
`actual_length` (= 1) against `length - 0.0001` (= 3.9999), which fails
whenever any actual padding was needed. -/
theorem claim_C2 (res : ℚ) (hres : res ≠ 0) (hone : OnGrid res 1) :
    spanC2 res = .error .assertionError := by
  obtain ⟨k, hk⟩ := hone
  have h0 : Time.ofRat 0 (some res) = .ok ⟨0, some res⟩ :=
    Time.ofRat_onGrid hres (onGrid_zero res)
  have h1 : Time.ofRat 1 (some res) = .ok ⟨1, some res⟩ :=
    Time.ofRat_onGrid hres ⟨k, hk⟩
  have h3 : Time.ofRat 3 (some res) = .ok ⟨3, some res⟩ :=
    Time.ofRat_onGrid hres ⟨3 * k, by push_cast; linear_combination 3 * hk⟩
  have hp : pitchInitStr ['C', '4'] none = .ok ⟨0, some 4⟩ := by decide
  have hnote : noteInit res ['C', '4'] 1 = .ok (.note ⟨0, some 4⟩ ⟨1, some res⟩) := by
    simp only [noteInit, hp, exceptBind_ok, h1, exceptPure_eq]
  have hcalc : calculate_span_length
      [⟨.note ⟨0, some 4⟩ ⟨1, some res⟩, ⟨0, some res⟩⟩] = .ok 1 := by
    simp [calculate_span_length, pyMax, endPosition, Event.unwrap,
      MusicObj.duration, Time.in_beats]
  have hpad : pad_to_length res
      [⟨.note ⟨0, some 4⟩ ⟨1, some res⟩, ⟨0, some res⟩⟩] 4 =
      .ok [⟨.note ⟨0, some 4⟩ ⟨1, some res⟩, ⟨0, some res⟩⟩,
           ⟨.rest ⟨3, some res⟩, ⟨1, some res⟩⟩] := by
    simp only [pad_to_length, hcalc, exceptBind_ok]
    norm_num [h3, h1, exceptBind_ok, exceptPure_eq]
  simp only [spanC2, hnote, exceptBind_ok, h0]
  simp only [spanInit]
  simp only [List.foldl, SpanInput.toEvent, append_event, Event.pyType]
  simp only [reduceCtorEq, false_or, false_and, if_false, List.nil_append,
    exceptBind_ok]
  rw [hcalc]
  simp only [exceptBind_ok]
  simp only [h0, exceptBind_ok]
  rw [if_pos (by norm_num : (1:ℚ) ≤ 4 + 1 / 10000), hpad]
  simp only [exceptBind_ok]
  rw [if_neg (by norm_num : ¬ ((1:ℚ) ≥ 4 - 1 / 10000))]
  simp only [exceptBind_err]

/-- Witness for C2 at the resolution 1/16. -/
theorem claim_C2_witness :
    ((1 : ℚ)/16 ≠ 0) ∧ OnGrid ((1 : ℚ)/16) 1 ∧
    spanC2 (1/16) = .error .assertionError :=
  ⟨by norm_num, ⟨16, by norm_num⟩,
    claim_C2 (1/16) (by norm_num) ⟨16, by norm_num⟩⟩

/-! ## Claims C4 and C8: `Span.overlay` -/

theorem onGrid_add {res x y : ℚ} (hx : OnGrid res x) (hy : OnGrid res y) :
    OnGrid res (x + y) := by
  obtain ⟨a, ha⟩ := hx
  obtain ⟨b, hb⟩ := hy
  exact ⟨a + b, by push_cast; rw [ha, hb]; ring⟩

theorem Time.ofRat_ne_zero {res x : ℚ} (hres : res ≠ 0) :
    Time.ofRat x (some res) = .ok ⟨res * pyRound (x / res), some res⟩ := by
  simp [Time.ofRat, Time.quantize_to, hres, Except.map]

theorem shiftEvents_total {res : ℚ} (hres : res ≠ 0) (off : Time) :
    ∀ evs : List Event, ∃ l, shiftEvents res off evs = .ok l := by
  intro evs
  induction evs with
  | nil => exact ⟨[], rfl⟩
  | cons e es ih =>
    obtain ⟨l, hl⟩ := ih
    exact ⟨⟨e.payload, ⟨res * pyRound ((e.time.time + off.time) / res),
        some res⟩⟩ :: l, by
      simp only [shiftEvents, Time.add, Time.ofRat_ne_zero hres,
        exceptBind_ok, hl, exceptPure_eq]⟩

theorem shiftEvents_onGrid {res : ℚ} (hres : res ≠ 0) (off : Time)
    (hoff : OnGrid res off.time) :
    ∀ evs : List Event, (∀ e ∈ evs, OnGrid res e.time.time) →
    shiftEvents res off evs =
      .ok (evs.map fun e => ⟨e.payload, ⟨e.time.time + off.time, some res⟩⟩) := by
  intro evs
  induction evs with
  | nil => exact fun _ => rfl
  | cons e es ih =>
    intro hall
    have ht : Time.add e.time off res = .ok ⟨e.time.time + off.time, some res⟩ :=
      Time.ofRat_onGrid hres
        (onGrid_add (hall e (List.mem_cons_self e es)) hoff)
    simp only [shiftEvents, ht, exceptBind_ok,
      ih fun x hx => hall x (List.mem_cons_of_mem _ hx), exceptBind_ok,
      exceptPure_eq, List.map_cons]

theorem move_offset_to_events_eval {res : ℚ} (hres : res ≠ 0) (s : Span)
    (hoff : OnGrid res s.offset.time)
    (hevs : ∀ e ∈ s.events, OnGrid res e.time.time) :
    move_offset_to_events res s =
      .ok ⟨⟨0, some res⟩,
        s.events.map fun e => ⟨e.payload, ⟨e.time.time + s.offset.time, some res⟩⟩⟩ := by
  simp only [move_offset_to_events, shiftEvents_onGrid hres _ hoff _ hevs,
    exceptBind_ok, Time.ofRat_onGrid hres (onGrid_zero res), exceptPure_eq]

theorem overlayFold_spans {res : ℚ} (hres : res ≠ 0) :
    ∀ (spans : List Span) (acc : Span),
    (∀ s ∈ spans, OnGrid res s.offset.time ∧
      ∀ e ∈ s.events, OnGrid res e.time.time) →
    overlayFold res acc (spans.map PyObj.span) =
      .ok ⟨acc.offset, acc.events ++ spans.flatMap fun s =>
        s.events.map fun e => ⟨e.payload, ⟨e.time.time + s.offset.time, some res⟩⟩⟩ := by
  intro spans
  induction spans with
  | nil =>
    intro acc _
    simp only [List.map_nil, overlayFold, List.flatMap_nil, List.append_nil]
    rfl
  | cons s ss ih =>
    intro acc hall
    obtain ⟨hoff, hevs⟩ := hall s (List.mem_cons_self s ss)
    have hshift := shiftEvents_onGrid hres s.offset hoff s.events hevs
    have hrec := ih ⟨acc.offset, acc.events ++ s.events.map fun e =>
        ⟨e.payload, ⟨e.time.time + s.offset.time, some res⟩⟩⟩
      (fun x hx => hall x (List.mem_cons_of_mem _ hx))
    simp only [List.map_cons, overlayFold, overlay_two_spans, hshift,
      exceptBind_ok, exceptPure_eq, hrec, List.flatMap_cons,
      List.append_assoc]

theorem time_eq_zero_refl {res : ℚ} (hres : res ≠ 0) :
    Time.eq ⟨0, some res⟩ ⟨0, some res⟩ = .ok true := by
  simp only [Time.eq, if_true]
  simp only [Time.in_resolution_steps_zero hres, exceptBind_ok]
  simp [exceptPure_eq]

theorem sortKey_total (e : Event) {r : ℚ} (hr : r ≠ 0)
    (h : e.time.resolution = some r) : ∃ k, sortKey e = .ok k := by
  cases hp : e.pitch with
  | none =>
    exact ⟨(pyTrunc (e.time.time / r), 0), by
      simp only [sortKey, Time.in_resolution_steps_eq h hr,
        exceptBind_ok, hp, exceptPure_eq]⟩
  | some pt =>
    cases hoct : pt.octave with
    | none =>
      exact ⟨(pyTrunc (e.time.time / r), to_midi_pitch pt.relative_pitch 4), by
        simp only [sortKey, Time.in_resolution_steps_eq h hr,
          exceptBind_ok, hp, Pitch.midi_pitch, hoct, exceptPure_eq]⟩
    | some o =>
      exact ⟨(pyTrunc (e.time.time / r), to_midi_pitch pt.relative_pitch o), by
        simp only [sortKey, Time.in_resolution_steps_eq h hr,
          exceptBind_ok, hp, Pitch.midi_pitch, hoct, exceptPure_eq]⟩

theorem sortEvents_total (evs : List Event)
    (h : ∀ e ∈ evs, ∃ k, sortKey e = .ok k) :
    ∃ l, sortEvents evs = .ok l := by
  obtain ⟨keyed, hk⟩ := decorateKeys_total h
  exact ⟨(keyed.insertionSort keyedLE).map (·.2), by
    simp only [sortEvents, hk, exceptBind_ok, exceptPure_eq]⟩

/-- **C4** (amended): overlaying a non-empty list of `Span`s produces a
single `Span` with offset zero retaining every event, each onset rebuilt
by `Time.__add__` as `Time(onset + source offset)` at the default
resolution — which equals the exact shift by the source span's offset
precisely when all offsets and onsets lie on the default grid, as stated
here; for an off-grid onset the re-quantization moves the onset instead
(see the counterexample). -/
theorem claim_C4 (res : ℚ) (hres : res ≠ 0) (spans : List Span)
    (hne : spans ≠ [])
    (hgrid : ∀ s ∈ spans, OnGrid res s.offset.time ∧
      ∀ e ∈ s.events, OnGrid res e.time.time) :
    ∃ out, overlay res (spans.map PyObj.span) = .ok out ∧
      out.offset = ⟨0, some res⟩ ∧
      out.events.Perm (spans.flatMap fun s =>
        s.events.map fun e => ⟨e.payload, ⟨e.time.time + s.offset.time, some res⟩⟩) ∧
      SortedByKey out.events := by
  match spans, hne with
  | s0 :: rest, _ =>
    obtain ⟨hoff0, hevs0⟩ := hgrid s0 (List.mem_cons_self s0 rest)
    have hmove := move_offset_to_events_eval hres s0 hoff0 hevs0
    have hfold := overlayFold_spans hres rest
      (⟨⟨0, some res⟩, s0.events.map fun e =>
        (⟨e.payload, ⟨e.time.time + s0.offset.time, some res⟩⟩ : Event)⟩ : Span)
      (fun x hx => hgrid x (List.mem_cons_of_mem _ hx))
    have hres' : ∀ e ∈ ((s0 :: rest).flatMap fun s =>
        s.events.map fun e =>
          (⟨e.payload, ⟨e.time.time + s.offset.time, some res⟩⟩ : Event)),
        e.time.resolution = some res := by
      intro e he
      rcases List.mem_flatMap.mp he with ⟨s, _, he'⟩
      rcases List.mem_map.mp he' with ⟨e0, _, rfl⟩
      rfl
    obtain ⟨sorted, hsorted⟩ := sortEvents_total _
      (fun e he => sortKey_total e hres (hres' e he))
    have hcomb : (s0.events.map fun e =>
        (⟨e.payload, ⟨e.time.time + s0.offset.time, some res⟩⟩ : Event)) ++
        (rest.flatMap fun s => s.events.map fun e =>
          (⟨e.payload, ⟨e.time.time + s.offset.time, some res⟩⟩ : Event)) =
        ((s0 :: rest).flatMap fun s => s.events.map fun e =>
          (⟨e.payload, ⟨e.time.time + s.offset.time, some res⟩⟩ : Event)) := by
      rw [List.flatMap_cons]
    refine ⟨⟨⟨0, some res⟩, sorted⟩, ?_, rfl, ?_, ?_⟩
    · simp only [List.map_cons, overlay, hmove, exceptBind_ok, hfold,
        exceptBind_ok, hcomb, Time.ofRat_onGrid hres (onGrid_zero res),
        exceptBind_ok, time_eq_zero_refl hres, exceptBind_ok, if_true,
        hsorted, exceptBind_ok, exceptPure_eq]
    · exact (sortEvents_ok hsorted).1
    · exact (sortEvents_ok hsorted).2

/-- Witness for C4: two one-note spans with offsets 0 and 2 on the 1/16
grid. -/
theorem claim_C4_witness :
    ((1 : ℚ)/16 ≠ 0) ∧
    ∃ out : Span, overlay (1/16)
        ([⟨⟨0, some (1/16)⟩, [⟨.note ⟨0, some 4⟩ ⟨1, some (1/16)⟩, ⟨0, some (1/16)⟩⟩]⟩,
          ⟨⟨2, some (1/16)⟩, [⟨.note ⟨9, some 4⟩ ⟨1, some (1/16)⟩, ⟨0, some (1/16)⟩⟩]⟩].map
            PyObj.span) = .ok out ∧
      out.offset = ⟨0, some (1/16)⟩ ∧
      out.events.Perm
        (([⟨⟨0, some (1/16)⟩, [⟨.note ⟨0, some 4⟩ ⟨1, some (1/16)⟩, ⟨0, some (1/16)⟩⟩]⟩,
           ⟨⟨2, some (1/16)⟩, [⟨.note ⟨9, some 4⟩ ⟨1, some (1/16)⟩, ⟨0, some (1/16)⟩⟩]⟩] :
            List Span).flatMap
          fun s => s.events.map fun e =>
            ⟨e.payload, ⟨e.time.time + s.offset.time, some (1/16)⟩⟩) ∧
      SortedByKey out.events := by
  refine ⟨by norm_num, ?_⟩
  refine claim_C4 (1/16) (by norm_num) _ (by simp) ?_
  intro s hs
  rcases List.mem_cons.mp hs with rfl | hs'
  · exact ⟨⟨0, by norm_num⟩, by
      intro e he
      rcases List.mem_singleton.mp he with rfl
      exact ⟨0, by norm_num⟩⟩
  · rcases List.mem_singleton.mp hs' with rfl
    exact ⟨⟨32, by norm_num⟩, by
      intro e he
      rcases List.mem_singleton.mp he with rfl
      exact ⟨0, by norm_num⟩⟩

/-- Counterexample for C4 as frozen: the claim promises every onset is
shifted exactly by the source span's offset, but `Time.__add__` rebuilds
the onset at the default resolution. With default resolution 1/16, the
constructible onset `Time(1/3, resolution=1/3)` in a span of offset 0 is
re-snapped by `overlay` to `1/16 * round((1/3)/(1/16)) = 5/16`, not kept
at `1/3 + 0`. -/
theorem claim_C4_cex :
    overlay (1/16) [.span ⟨⟨0, some (1/16)⟩,
        [⟨.note ⟨0, some 4⟩ ⟨1, some (1/16)⟩, ⟨1/3, some (1/3)⟩⟩]⟩] =
      .ok ⟨⟨0, some (1/16)⟩,
        [⟨.note ⟨0, some 4⟩ ⟨1, some (1/16)⟩, ⟨5/16, some (1/16)⟩⟩]⟩ ∧
    (5 : ℚ)/16 ≠ 1/3 + 0 :=
  ⟨by with_unfolding_all decide, by norm_num⟩

theorem overlayFold_err {res : ℚ} (hres : res ≠ 0) :
    ∀ (args : List PyObj) (acc : Span),
    (∃ x ∈ args, x.isSpan = false) →
    overlayFold res acc args = .error .valueError := by
  intro args
  induction args with
  | nil => intro acc h; simp at h
  | cons b bs ih =>
    intro acc h
    cases b with
    | other tag => simp [overlayFold, overlay_two_spans, exceptBind_err]
    | span sb =>
      obtain ⟨l, hl⟩ := shiftEvents_total hres sb.offset sb.events
      have h' : ∃ x ∈ bs, x.isSpan = false := by
        rcases h with ⟨x, hx, hxf⟩
        rcases List.mem_cons.mp hx with rfl | hx'
        · simp [PyObj.isSpan] at hxf
        · exact ⟨x, hx', hxf⟩
      simp only [overlayFold, overlay_two_spans, hl, exceptBind_ok,
        exceptPure_eq, ih _ h']

/-- **C8** (amended): `Span.overlay` does fail whenever some argument is
not a `Span`, but the error kind depends on the position: a non-`Span` in
any position after the first raises `ValueError` (the `NotASpan` check in
`_overlay_two_spans`), while a non-`Span` *first* argument fails earlier
with `AttributeError` when `move_offset_to_events` is looked up on it —
not with the claimed ValueError-equivalent. -/
theorem claim_C8 (res : ℚ) (hres : res ≠ 0) (a0 : PyObj) (rest : List PyObj)
    (hbad : ∃ x ∈ a0 :: rest, x.isSpan = false) :
    overlay res (a0 :: rest) =
      .error (if a0.isSpan then .valueError else .attributeError) := by
  cases a0 with
  | other tag => rfl
  | span s0 =>
    have h' : ∃ x ∈ rest, x.isSpan = false := by
      rcases hbad with ⟨x, hx, hxf⟩
      rcases List.mem_cons.mp hx with rfl | hx'
      · simp [PyObj.isSpan] at hxf
      · exact ⟨x, hx', hxf⟩
    obtain ⟨l, hl⟩ := shiftEvents_total hres s0.offset s0.events
    have hmove : move_offset_to_events res s0 =
        .ok ⟨⟨res * pyRound (0 / res), some res⟩, l⟩ := by
      simp only [move_offset_to_events, hl, exceptBind_ok,
        Time.ofRat_ne_zero hres, exceptPure_eq]
    simp only [overlay, hmove, exceptBind_ok, overlayFold_err hres rest _ h',
      exceptBind_err, PyObj.isSpan]
    rfl

/-- Witness for C8: a span followed by the integer-like value `7`. -/
theorem claim_C8_witness :
    ((1 : ℚ)/16 ≠ 0) ∧
    overlay (1/16) [.span ⟨⟨0, some (1/16)⟩, []⟩, .other 7] =
      .error .valueError := by
  refine ⟨by norm_num, ?_⟩
  have h := claim_C8 (1/16) (by norm_num) (.span ⟨⟨0, some (1/16)⟩, []⟩)
    [.other 7] ⟨.other 7, by simp, rfl⟩
  simpa using h

/-- Counterexample for C8 as frozen: a non-`Span` *first* argument makes
`overlay` fail with `AttributeError`, not the claimed
ValueError-equivalent `NotASpan`. -/
theorem claim_C8_cex :
    overlay (1/16) [.other 0, .span ⟨⟨0, some (1/16)⟩, []⟩] =
        .error .attributeError ∧
    PyErr.attributeError ≠ PyErr.valueError :=
  ⟨rfl, by decide⟩
